import Mathlib

/-!
Verification of the transformer core of `scripts/build_csv.py`.

Shallow embedding conventions:
* Python floats are modelled as exact rationals (`ℚ`).
* A value that may be absent (missing key) or JSON `null` is an `Option`.
* A price that is absent or not convertible by Python's `float(...)` is
  modelled as `none`; a convertible price is `some` of its rational value.
* Python's `str.lower` and `str.strip` are modelled character-wise on the
  string's character list.
* Python's `round(x, 6)` is modelled as exact decimal rounding to six
  places with ties to even (banker's rounding), on rationals.
* File output for the CSV writer is modelled as the list of written lines,
  each line being the list of its cell values before text serialization;
  the empty file is the empty list.
-/

namespace BuildCsv

/-- Python `str.lower` (per-character lowercasing). -/
def lowerStr (s : String) : String := ⟨s.data.map Char.toLower⟩

/-- Helper for `stripStr`: drop whitespace from both ends of a char list. -/
def stripChars (l : List Char) : List Char :=
  ((l.dropWhile Char.isWhitespace).reverse.dropWhile Char.isWhitespace).reverse

/-- Python `str.strip` (remove leading and trailing whitespace). -/
def stripStr (s : String) : String := ⟨stripChars s.data⟩

/-- Python `round(x, 6)`: round to six decimal places, ties to even. -/
def round6 (x : ℚ) : ℚ :=
  let y := x * 1000000
  let f : ℤ := ⌊y⌋
  let frac := y - (f : ℚ)
  let r : ℤ :=
    if 1/2 < frac then f + 1
    else if frac < 1/2 then f
    else if f % 2 = 0 then f else f + 1
  (r : ℚ) / 1000000

/-- `PLAYER_MARKETS` from the script: the fixed allow-list of market keys. -/
def PLAYER_MARKETS : List String :=
  ["player_points_rebounds_assists", "player_points", "player_assists", "player_threes"]

/-- An `outcomes` entry of a market, as read from the API JSON.
`name` is the side label, `description` the subject, `point` the line,
`price` the American-odds price (absent / non-numeric modelled as `none`). -/
structure Outcome where
  name : Option String
  description : Option String
  point : Option ℚ
  price : Option ℚ
deriving DecidableEq

/-- A `markets` entry of a bookmaker. `outcomes := none` models a missing
or `null` outcomes collection. -/
structure Market where
  key : Option String
  last_update : Option String
  outcomes : Option (List Outcome)
deriving DecidableEq

/-- A `bookmakers` entry of an event. `markets := none` models a missing
or `null` markets collection. -/
structure Bookmaker where
  key : Option String
  title : Option String
  last_update : Option String
  markets : Option (List Market)
deriving DecidableEq

/-- An event record. `bookmakers := none` models a missing or `null`
bookmakers collection. -/
structure Event where
  id : Option String
  home_team : Option String
  away_team : Option String
  commence_time : Option String
  bookmakers : Option (List Bookmaker)
deriving DecidableEq

/-- A flat output row, one per outcome, as built in `flatten_events_to_rows`. -/
structure Row where
  event_id : Option String
  home_team : Option String
  away_team : Option String
  commence_time : Option String
  bookmaker : Option String
  bookmaker_title : Option String
  bookmaker_last_update : Option String
  market_last_update : Option String
  market : Option String
  outcome : Option String
  description : String
  point : Option ℚ
  price_american : Option ℚ
  implied_prob : Option ℚ
  no_vig_prob : Option ℚ
deriving DecidableEq

/-- `_american_to_prob`: American odds to implied probability.
`none` models a `None` or non-convertible input (the `try: float(...)`
branch that returns `None`). -/
def _american_to_prob (american : Option ℚ) : Option ℚ :=
  match american with
  | none => none
  | some ao => if 0 < ao then some (100 / (ao + 100)) else some ((-ao) / ((-ao) + 100))

/-- The `implieds` list built inside the market loop of
`flatten_events_to_rows`: `_american_to_prob(o.get("price")) or 0.0`
for each outcome. -/
def impliedsOf (outcomes : List Outcome) : List ℚ :=
  outcomes.map (fun o => (_american_to_prob o.price).getD 0)

/-- The `no_vig_probs` list built inside the market loop of
`flatten_events_to_rows`: proportional split when the implied total is
positive, otherwise a uniform `1/n` split over `n = max 1 (#outcomes)`. -/
def noVigList (outcomes : List Outcome) : List ℚ :=
  let implieds := impliedsOf outcomes
  let total := implieds.sum
  if 0 < total then implieds.map (fun p => p / total)
  else List.replicate (max 1 outcomes.length) (1 / ((max 1 outcomes.length : ℕ) : ℚ))

/-- The `for idx, o in enumerate(outcomes)` loop of `flatten_events_to_rows`:
builds one `Row` per outcome, reading `implieds[idx]` and `no_vig_probs[idx]`
when the index is in range (mirroring the source's bounds guards). -/
def marketRowsAux (ev : Event) (bk : Bookmaker) (m : Market)
    (implieds noVigs : List ℚ) : ℕ → List Outcome → List Row
  | _, [] => []
  | idx, o :: rest =>
      { event_id := ev.id
        home_team := ev.home_team
        away_team := ev.away_team
        commence_time := ev.commence_time
        bookmaker := bk.key
        bookmaker_title := bk.title
        bookmaker_last_update := bk.last_update
        market_last_update := m.last_update
        market := m.key
        outcome := o.name
        description := o.description.getD ""
        point := o.point
        price_american := o.price
        implied_prob := (implieds[idx]?).map round6
        no_vig_prob := (noVigs[idx]?).map round6 } ::
      marketRowsAux ev bk m implieds noVigs (idx + 1) rest

/-- The body of the market loop of `flatten_events_to_rows` for one market. -/
def marketRows (ev : Event) (bk : Bookmaker) (m : Market) : List Row :=
  let outcomes := m.outcomes.getD []
  marketRowsAux ev bk m (impliedsOf outcomes) (noVigList outcomes) 0 outcomes

/-- The bookmaker loop of `flatten_events_to_rows` for one bookmaker. -/
def bookmakerRows (ev : Event) (bk : Bookmaker) : List Row :=
  (bk.markets.getD []).flatMap (marketRows ev bk)

/-- The event body of `flatten_events_to_rows` for one (non-falsy) event. -/
def eventRows (ev : Event) : List Row :=
  (ev.bookmakers.getD []).flatMap (bookmakerRows ev)

/-- `flatten_events_to_rows`: flattens events to rows; a falsy (`None`)
event is skipped by the `if not event: continue` guard. -/
def flatten_events_to_rows (events : List (Option Event)) : List Row :=
  events.flatMap (fun e =>
    match e with
    | none => []
    | some ev => eventRows ev)

/-- `filter_fanduel_rows`: keep rows whose lowercased bookmaker is
`"fanduel"`, whose market is in `PLAYER_MARKETS`, and whose stripped,
lowercased outcome is `"over"` or `"under"`; relative order preserved. -/
def filter_fanduel_rows : List Row → List Row
  | [] => []
  | r :: rest =>
      let bk := lowerStr (r.bookmaker.getD "")
      let market := r.market.getD ""
      let outcome := lowerStr (stripStr (r.outcome.getD ""))
      if bk ≠ "fanduel" then filter_fanduel_rows rest
      else if market ∉ PLAYER_MARKETS then filter_fanduel_rows rest
      else if outcome ≠ "over" ∧ outcome ≠ "under" then filter_fanduel_rows rest
      else r :: filter_fanduel_rows rest

/-- A CSV cell value before text serialization: `null` for Python `None`
(written as the empty cell by the `csv` module), a string, or a number. -/
inductive Cell
  | null
  | str (s : String)
  | num (q : ℚ)
deriving DecidableEq

/-- Cell for an optional string field. -/
def cellStr (v : Option String) : Cell :=
  match v with
  | none => Cell.null
  | some s => Cell.str s

/-- Cell for an optional numeric field. -/
def cellNum (v : Option ℚ) : Cell :=
  match v with
  | none => Cell.null
  | some q => Cell.num q

/-- The header written by `csv.DictWriter`: the keys of the first row, in
the insertion order of the row dict built in `flatten_events_to_rows`. -/
def csvHeader : List String :=
  ["event_id", "home_team", "away_team", "commence_time", "bookmaker",
   "bookmaker_title", "bookmaker_last_update", "market_last_update",
   "market", "outcome", "description", "point", "price_american",
   "implied_prob", "no_vig_prob"]

/-- The cells of one data line, in header order. -/
def rowCells (r : Row) : List Cell :=
  [cellStr r.event_id, cellStr r.home_team, cellStr r.away_team,
   cellStr r.commence_time, cellStr r.bookmaker, cellStr r.bookmaker_title,
   cellStr r.bookmaker_last_update, cellStr r.market_last_update,
   cellStr r.market, cellStr r.outcome, Cell.str r.description,
   cellNum r.point, cellNum r.price_american, cellNum r.implied_prob,
   cellNum r.no_vig_prob]

/-- `write_csv`: with no rows it writes an empty file (modelled as `[]`),
otherwise a header line followed by one line per row. -/
def write_csv (rows : List Row) : List (List Cell) :=
  if rows.isEmpty then []
  else (csvHeader.map Cell.str) :: rows.map rowCells

/-! Spec-side notions used to state the claims. -/

/-- The pair key of the spec: (event id, market id, description, point). -/
def pairKey (r : Row) : Option String × Option String × String × Option ℚ :=
  (r.event_id, r.market, r.description, r.point)

/-- A row whose outcome side is "Over" or "Under", case-insensitively, as in
the spec's pairing step. -/
def isOverUnderRow (r : Row) : Bool :=
  lowerStr (r.outcome.getD "") == "over" || lowerStr (r.outcome.getD "") == "under"

/-- Number of Over/Under rows of `rows` sharing the pair key `k`. -/
def ouCount (rows : List Row) (k : Option String × Option String × String × Option ℚ) : ℕ :=
  rows.countP (fun s => decide (pairKey s = k) && isOverUnderRow s)

/-- The spec's pair-key no-vig invariant: any row whose pair-key group does
not contain exactly two Over/Under rows has `no_vig_prob` unset. -/
def noVigPairKeyInvariant (rows : List Row) : Prop :=
  ∀ r ∈ rows, ouCount rows (pairKey r) ≠ 2 → r.no_vig_prob = none

/-! Claim C5. -/

/-- C5: the implied-probability conversion returns `100 / (a + 100)` for a
numeric price `a > 0`, `(-a) / ((-a) + 100)` for a numeric price `a ≤ 0`,
and no value for an absent or non-numeric price; it is a pure total
function of its argument. -/
theorem C5_american_to_prob_formula :
    _american_to_prob none = none ∧
    (∀ a : ℚ, 0 < a → _american_to_prob (some a) = some (100 / (a + 100))) ∧
    (∀ a : ℚ, a ≤ 0 → _american_to_prob (some a) = some ((-a) / ((-a) + 100))) := by
  refine ⟨rfl, fun a h => ?_, fun a h => ?_⟩
  · simp only [_american_to_prob]
    rw [if_pos h]
  · simp only [_american_to_prob]
    rw [if_neg (not_lt.mpr h)]

/-- Witness for C5 at the concrete prices +50 and −50. -/
theorem C5_witness :
    (0:ℚ) < 50 ∧ _american_to_prob (some 50) = some (100 / (50 + 100)) ∧
    (-50:ℚ) ≤ 0 ∧ _american_to_prob (some (-50)) = some ((-(-50)) / ((-(-50)) + 100)) :=
  ⟨by norm_num, C5_american_to_prob_formula.2.1 50 (by norm_num),
   by norm_num, C5_american_to_prob_formula.2.2 (-50) (by norm_num)⟩

/-! Claim C8. Concrete records used by the witness. -/

/-- An event whose bookmakers collection is missing/null. -/
def evEmptyBookmakers : Event :=
  { id := some "e1", home_team := some "H", away_team := some "A",
    commence_time := none, bookmakers := none }

/-- A bookmaker whose markets collection is empty. -/
def bkEmptyMarkets : Bookmaker :=
  { key := some "fanduel", title := some "FanDuel", last_update := none,
    markets := some [] }

/-- A market whose outcomes collection is missing/null. -/
def mEmptyOutcomes : Market :=
  { key := some "player_points", last_update := none, outcomes := none }

/-- C8: flattening a null event skips it (it contributes zero rows), and an
event with a missing/empty bookmakers collection, a bookmaker with a
missing/empty markets collection, and a market with a missing/empty
outcomes collection each contribute zero rows; all functions are total, so
no branch can raise. -/
theorem C8_flatten_skips_empty :
    (∀ rest : List (Option Event),
      flatten_events_to_rows (none :: rest) = flatten_events_to_rows rest) ∧
    (∀ ev : Event, ev.bookmakers = none ∨ ev.bookmakers = some [] →
      eventRows ev = []) ∧
    (∀ (ev : Event) (bk : Bookmaker), bk.markets = none ∨ bk.markets = some [] →
      bookmakerRows ev bk = []) ∧
    (∀ (ev : Event) (bk : Bookmaker) (m : Market),
      m.outcomes = none ∨ m.outcomes = some [] → marketRows ev bk m = []) := by
  refine ⟨fun rest => ?_, fun ev h => ?_, fun ev bk h => ?_, fun ev bk m h => ?_⟩
  · simp [flatten_events_to_rows]
  · rcases h with h | h <;> simp [eventRows, h]
  · rcases h with h | h <;> simp [bookmakerRows, h]
  · rcases h with h | h <;> simp [marketRows, h, marketRowsAux]

/-- Witness for C8 on concrete degenerate inputs. -/
theorem C8_witness :
    flatten_events_to_rows [none] = flatten_events_to_rows [] ∧
    eventRows evEmptyBookmakers = [] ∧
    bookmakerRows evEmptyBookmakers bkEmptyMarkets = [] ∧
    marketRows evEmptyBookmakers bkEmptyMarkets mEmptyOutcomes = [] :=
  ⟨C8_flatten_skips_empty.1 [],
   C8_flatten_skips_empty.2.1 _ (Or.inl rfl),
   C8_flatten_skips_empty.2.2.1 _ _ (Or.inr rfl),
   C8_flatten_skips_empty.2.2.2 _ _ _ (Or.inl rfl)⟩

/-! Claim C9. -/

/-- C9: writing an empty row sequence produces an empty file: no data lines
and no header line; the writer is total, so it cannot error. -/
theorem C9_write_csv_empty : write_csv [] = [] := by
  simp [write_csv]

/-! Claim C6. -/

/-- Destructuring of a successful conversion: the returned probability is
the branch formula of the source. -/
lemma american_to_prob_some (a p : ℚ) (h : _american_to_prob (some a) = some p) :
    (0 < a ∧ p = 100 / (a + 100)) ∨ (a ≤ 0 ∧ p = (-a) / ((-a) + 100)) := by
  by_cases ha : 0 < a
  · left
    refine ⟨ha, ?_⟩
    simp only [_american_to_prob, if_pos ha, Option.some.injEq] at h
    exact h.symm
  · right
    refine ⟨le_of_not_lt ha, ?_⟩
    simp only [_american_to_prob, if_neg ha, Option.some.injEq] at h
    exact h.symm

/-- C6 counterexample: at the numeric price 0 the conversion returns
probability 0, which is not strictly positive; and the prices −50 < 50 get
probabilities 1/3 < 2/3, so the conversion is not monotonically decreasing
across the whole numeric range. -/
theorem C6_counterexample :
    _american_to_prob (some 0) = some 0 ∧ ¬ ((0:ℚ) < 0) ∧
    (-50:ℚ) < 50 ∧ _american_to_prob (some (-50)) = some (1/3) ∧
    _american_to_prob (some 50) = some (2/3) ∧ (1:ℚ)/3 < 2/3 := by
  refine ⟨?_, by norm_num, by norm_num, ?_, ?_, by norm_num⟩
  · simp [_american_to_prob]
  · simp only [_american_to_prob]
    rw [if_neg (by norm_num)]
    norm_num
  · simp only [_american_to_prob]
    rw [if_pos (by norm_num)]
    norm_num

/-- C6 amended: the derived probability always lies in [0, 1); it lies
strictly in (0, 1) for every numeric price other than 0; and the
conversion is strictly decreasing on prices ≤ 0 and strictly decreasing on
prices > 0 (but not across the two branches). -/
theorem C6_amended_bounds_mono :
    (∀ a p : ℚ, _american_to_prob (some a) = some p → 0 ≤ p ∧ p < 1) ∧
    (∀ a p : ℚ, a ≠ 0 → _american_to_prob (some a) = some p → 0 < p ∧ p < 1) ∧
    (∀ a₁ a₂ p₁ p₂ : ℚ, a₁ < a₂ → a₂ ≤ 0 →
      _american_to_prob (some a₁) = some p₁ →
      _american_to_prob (some a₂) = some p₂ → p₂ < p₁) ∧
    (∀ a₁ a₂ p₁ p₂ : ℚ, 0 < a₁ → a₁ < a₂ →
      _american_to_prob (some a₁) = some p₁ →
      _american_to_prob (some a₂) = some p₂ → p₂ < p₁) := by
  refine ⟨?_, ?_, ?_, ?_⟩
  · intro a p h
    rcases american_to_prob_some a p h with ⟨ha, hp⟩ | ⟨ha, hp⟩
    · subst hp
      constructor
      · positivity
      · rw [div_lt_one (by linarith)]
        linarith
    · subst hp
      constructor
      · apply div_nonneg (by linarith) (by linarith)
      · rw [div_lt_one (by linarith)]
        linarith
  · intro a p hne h
    rcases american_to_prob_some a p h with ⟨ha, hp⟩ | ⟨ha, hp⟩
    · subst hp
      constructor
      · positivity
      · rw [div_lt_one (by linarith)]
        linarith
    · have ha' : a < 0 := lt_of_le_of_ne ha hne
      subst hp
      constructor
      · apply div_pos (by linarith) (by linarith)
      · rw [div_lt_one (by linarith)]
        linarith
  · intro a₁ a₂ p₁ p₂ h12 h2 h1p h2p
    rcases american_to_prob_some a₁ p₁ h1p with ⟨ha, hp⟩ | ⟨_, hp⟩
    · exact absurd ha (by linarith)
    rcases american_to_prob_some a₂ p₂ h2p with ⟨hb, hq⟩ | ⟨_, hq⟩
    · exact absurd hb (by linarith)
    subst hp
    subst hq
    rw [div_lt_div_iff₀ (by linarith) (by linarith)]
    nlinarith
  · intro a₁ a₂ p₁ p₂ h1 h12 h1p h2p
    rcases american_to_prob_some a₁ p₁ h1p with ⟨_, hp⟩ | ⟨ha, hp⟩
    swap
    · exact absurd ha (by linarith)
    rcases american_to_prob_some a₂ p₂ h2p with ⟨_, hq⟩ | ⟨hb, hq⟩
    swap
    · exact absurd hb (by linarith)
    subst hp
    subst hq
    rw [div_lt_div_iff₀ (by linarith) (by linarith)]
    nlinarith

/-- Witness for the amended C6 at concrete prices −200, −100, 100, 200. -/
theorem C6_amended_witness :
    ((0:ℚ) ≤ 1/2 ∧ (1:ℚ)/2 < 1) ∧ ((0:ℚ) < 1/2 ∧ (1:ℚ)/2 < 1) ∧
    ((1:ℚ)/2 < 2/3) ∧ ((1:ℚ)/3 < 1/2) :=
  ⟨C6_amended_bounds_mono.1 (-100) (1/2)
      (by simp only [_american_to_prob]; rw [if_neg (by norm_num)]; norm_num),
   C6_amended_bounds_mono.2.1 (-100) (1/2) (by norm_num)
      (by simp only [_american_to_prob]; rw [if_neg (by norm_num)]; norm_num),
   C6_amended_bounds_mono.2.2.1 (-200) (-100) (2/3) (1/2) (by norm_num) (by norm_num)
      (by simp only [_american_to_prob]; rw [if_neg (by norm_num)]; norm_num)
      (by simp only [_american_to_prob]; rw [if_neg (by norm_num)]; norm_num),
   C6_amended_bounds_mono.2.2.2 100 200 (1/2) (1/3) (by norm_num) (by norm_num)
      (by simp only [_american_to_prob]; rw [if_pos (by norm_num)]; norm_num)
      (by simp only [_american_to_prob]; rw [if_pos (by norm_num)]; norm_num)⟩

/-! Claim C7. -/

/-- The filter predicate exactly as the claim words it: bookmaker equals
the target case-insensitively, market in the allow-list, outcome side
"Over"/"Under" case-insensitively (no whitespace handling). -/
def specFilterKeep (r : Row) : Bool :=
  (lowerStr (r.bookmaker.getD "") == "fanduel") &&
  (decide ((r.market.getD "") ∈ PLAYER_MARKETS)) &&
  (lowerStr (r.outcome.getD "") == "over" || lowerStr (r.outcome.getD "") == "under")

/-- The amended filter predicate: as the claim, except that the outcome
side is compared after stripping surrounding whitespace, matching the
source's `.strip().lower()`. -/
def amendedFilterKeep (r : Row) : Bool :=
  (lowerStr (r.bookmaker.getD "") == "fanduel") &&
  (decide ((r.market.getD "") ∈ PLAYER_MARKETS)) &&
  (lowerStr (stripStr (r.outcome.getD "")) == "over" ||
   lowerStr (stripStr (r.outcome.getD "")) == "under")

/-- A FanDuel row of an allow-listed market whose outcome label carries
surrounding whitespace. -/
def rowC7 : Row :=
  { event_id := some "e1", home_team := some "H", away_team := some "A",
    commence_time := none, bookmaker := some "fanduel",
    bookmaker_title := some "FanDuel", bookmaker_last_update := none,
    market_last_update := none, market := some "player_points",
    outcome := some " over ", description := "LeBron James",
    point := some 20, price_american := some (-100),
    implied_prob := none, no_vig_prob := none }

/-- C7 counterexample: the source filter keeps a row whose outcome label is
`" over "` (whitespace around the side), but that row does not satisfy the
claim's predicate, so the filter does not return exactly the rows the
claim describes. -/
theorem C7_counterexample :
    filter_fanduel_rows [rowC7] = [rowC7] ∧
    List.filter (fun r => specFilterKeep r) [rowC7] = [] := by
  constructor
  · simp only [filter_fanduel_rows, rowC7]
    rw [if_neg (by decide), if_neg (by decide), if_neg (by decide)]
  · simp only [List.filter, specFilterKeep, rowC7]
    rw [show ((lowerStr ((some "fanduel").getD "") == "fanduel") &&
      (decide (((some "player_points").getD "") ∈ PLAYER_MARKETS)) &&
      (lowerStr ((some " over ").getD "") == "over" ||
       lowerStr ((some " over ").getD "") == "under")) = false from by decide]

/-- C7 amended: the source filter returns exactly the rows whose bookmaker
matches "fanduel" case-insensitively, whose market is in the allow-list,
and whose outcome side — after stripping surrounding whitespace — is
"Over" or "Under" case-insensitively; as a `List.filter`, it preserves the
relative order of kept rows and drops every other row. -/
theorem C7_amended_filter (rows : List Row) :
    filter_fanduel_rows rows = rows.filter amendedFilterKeep := by
  induction rows with
  | nil => rfl
  | cons r rest ih =>
      by_cases h1 : lowerStr (r.bookmaker.getD "") = "fanduel" <;>
      by_cases h2 : (r.market.getD "") ∈ PLAYER_MARKETS <;>
      by_cases h3 : lowerStr (stripStr (r.outcome.getD "")) = "over" <;>
      by_cases h4 : lowerStr (stripStr (r.outcome.getD "")) = "under" <;>
      simp [filter_fanduel_rows, List.filter_cons, amendedFilterKeep, h1, h2, h3, h4, ih]

/-- Witness for the amended C7 on the concrete one-row input `[rowC7]`. -/
theorem C7_amended_witness :
    filter_fanduel_rows [rowC7] = List.filter amendedFilterKeep [rowC7] :=
  C7_amended_filter [rowC7]

/-! Evaluation helpers for `round6` on concrete values. -/

/-- `round6` is the identity on rationals that are exact multiples of
`10⁻⁶`. -/
lemma round6_of_mul_eq_int (x : ℚ) (m : ℤ) (h : x * 1000000 = (m : ℚ)) :
    round6 x = x := by
  have hx : x = (m : ℚ) / 1000000 := by
    rw [eq_div_iff (by norm_num)]
    exact h
  simp only [round6, h, Int.floor_intCast, sub_self]
  rw [if_neg (by norm_num), if_pos (by norm_num)]
  exact hx.symm

lemma round6_zero : round6 0 = 0 := round6_of_mul_eq_int 0 0 (by norm_num)

lemma round6_one : round6 1 = 1 := round6_of_mul_eq_int 1 1000000 (by norm_num)

lemma round6_half : round6 (1/2) = 1/2 := round6_of_mul_eq_int _ 500000 (by norm_num)

lemma round6_quarter : round6 (1/4) = 1/4 := round6_of_mul_eq_int _ 250000 (by norm_num)

/-! Claim C1: concrete input — a market holding a single Over outcome. -/

/-- A lone Over outcome at price −100 (implied probability 1/2). -/
def oC1 : Outcome :=
  { name := some "Over", description := some "Player One", point := some 20,
    price := some (-100) }

def mC1 : Market :=
  { key := some "player_points", last_update := none, outcomes := some [oC1] }

def bkC1 : Bookmaker :=
  { key := some "fanduel", title := some "FanDuel", last_update := none,
    markets := some [mC1] }

def evC1 : Event :=
  { id := some "ev1", home_team := some "H", away_team := some "A",
    commence_time := some "T", bookmakers := some [bkC1] }

/-- The row the source produces for `evC1`. -/
def rowC1 : Row :=
  { event_id := some "ev1", home_team := some "H", away_team := some "A",
    commence_time := some "T", bookmaker := some "fanduel",
    bookmaker_title := some "FanDuel", bookmaker_last_update := none,
    market_last_update := none, market := some "player_points",
    outcome := some "Over", description := "Player One", point := some 20,
    price_american := some (-100), implied_prob := some (1/2),
    no_vig_prob := some 1 }

lemma evalC1 : flatten_events_to_rows [some evC1] = [rowC1] := by
  norm_num [flatten_events_to_rows, eventRows, bookmakerRows, marketRows,
    marketRowsAux, impliedsOf, noVigList, _american_to_prob,
    evC1, bkC1, mC1, oC1, rowC1, round6_half, round6_one]

lemma lower_over_eval : lowerStr "Over" = "over" := by decide

/-- C1: the code violates the spec's pair-key invariant — on `evC1` the
flattened output contains a row whose pair-key group has exactly one
Over/Under row (not two), yet its `no_vig_prob` is set (to 1). -/
theorem C1_code_eval :
    ∃ r ∈ flatten_events_to_rows [some evC1],
      ouCount (flatten_events_to_rows [some evC1]) (pairKey r) = 1 ∧
      r.no_vig_prob = some 1 := by
  rw [evalC1]
  refine ⟨rowC1, by simp, ?_, by simp [rowC1]⟩
  simp [ouCount, isOverUnderRow, rowC1, lower_over_eval]

/-! Claim C2: concrete input — an Over/Under pair with no prices. -/

def oC2over : Outcome :=
  { name := some "Over", description := some "Player Two", point := some 10,
    price := none }

def oC2under : Outcome :=
  { name := some "Under", description := some "Player Two", point := some 10,
    price := none }

def mC2 : Market :=
  { key := some "player_points", last_update := none,
    outcomes := some [oC2over, oC2under] }

def bkC2 : Bookmaker :=
  { key := some "fanduel", title := some "FanDuel", last_update := none,
    markets := some [mC2] }

def evC2 : Event :=
  { id := some "ev2", home_team := some "H", away_team := some "A",
    commence_time := some "T", bookmakers := some [bkC2] }

/-- C2: on a pair whose implied-probability sum is 0 (both prices absent),
the code asserts the uniform 50/50 split instead of leaving `no_vig_prob`
unset. -/
theorem C2_code_eval :
    (impliedsOf [oC2over, oC2under]).sum = 0 ∧
    (flatten_events_to_rows [some evC2]).map Row.no_vig_prob =
      [some (1/2), some (1/2)] := by
  constructor
  · simp [impliedsOf, oC2over, oC2under, _american_to_prob]
  · norm_num [flatten_events_to_rows, eventRows, bookmakerRows, marketRows,
      marketRowsAux, impliedsOf, noVigList, _american_to_prob,
      evC2, bkC2, mC2, oC2over, oC2under, round6_half]

/-! Claim C3: concrete input — one market holding two distinct
Over/Under pairs (two different players), all at price −100. -/

def oC3ao : Outcome :=
  { name := some "Over", description := some "Player A", point := some 20,
    price := some (-100) }

def oC3au : Outcome :=
  { name := some "Under", description := some "Player A", point := some 20,
    price := some (-100) }

def oC3bo : Outcome :=
  { name := some "Over", description := some "Player B", point := some 30,
    price := some (-100) }

def oC3bu : Outcome :=
  { name := some "Under", description := some "Player B", point := some 30,
    price := some (-100) }

def mC3 : Market :=
  { key := some "player_points", last_update := none,
    outcomes := some [oC3ao, oC3au, oC3bo, oC3bu] }

def bkC3 : Bookmaker :=
  { key := some "fanduel", title := some "FanDuel", last_update := none,
    markets := some [mC3] }

def evC3 : Event :=
  { id := some "ev3", home_team := some "H", away_team := some "A",
    commence_time := some "T", bookmakers := some [bkC3] }

/-- Row builder shared by the four `evC3` rows. -/
def rowC3 (nm desc : String) (pt : ℚ) : Row :=
  { event_id := some "ev3", home_team := some "H", away_team := some "A",
    commence_time := some "T", bookmaker := some "fanduel",
    bookmaker_title := some "FanDuel", bookmaker_last_update := none,
    market_last_update := none, market := some "player_points",
    outcome := some nm, description := desc, point := some pt,
    price_american := some (-100), implied_prob := some (1/2),
    no_vig_prob := some (1/4) }

lemma evalC3 : flatten_events_to_rows [some evC3] =
    [rowC3 "Over" "Player A" 20, rowC3 "Under" "Player A" 20,
     rowC3 "Over" "Player B" 30, rowC3 "Under" "Player B" 30] := by
  norm_num [flatten_events_to_rows, eventRows, bookmakerRows, marketRows,
    marketRowsAux, impliedsOf, noVigList, _american_to_prob,
    evC3, bkC3, mC3, oC3ao, oC3au, oC3bo, oC3bu, rowC3,
    round6_half, round6_quarter]

lemma lower_under_eval : lowerStr "Under" = "under" := by decide

/-- C3: a valid Over/Under pair (exactly two rows with its pair key, both
prices parseable, implied sum 1 > 0) whose assigned `no_vig_prob` values
are 1/4 and 1/4 — each divided by the whole market's total rather than the
pair's sum — so they sum to 1/2, missing 1.0 by far more than 1e-5. -/
theorem C3_code_eval :
    ∃ r ∈ flatten_events_to_rows [some evC3],
    ∃ s ∈ flatten_events_to_rows [some evC3],
      pairKey r = pairKey s ∧
      lowerStr (r.outcome.getD "") = "over" ∧
      lowerStr (s.outcome.getD "") = "under" ∧
      _american_to_prob r.price_american = some (1/2) ∧
      _american_to_prob s.price_american = some (1/2) ∧
      ouCount (flatten_events_to_rows [some evC3]) (pairKey r) = 2 ∧
      r.no_vig_prob = some (1/4) ∧ s.no_vig_prob = some (1/4) ∧
      (1:ℚ)/4 + 1/4 + 1/100000 < 1 := by
  rw [evalC3]
  refine ⟨rowC3 "Over" "Player A" 20, by simp, rowC3 "Under" "Player A" 20, by simp,
    by simp [pairKey, rowC3], ?_, ?_, ?_, ?_, ?_, by simp [rowC3], by simp [rowC3],
    by norm_num⟩
  · simp [rowC3, lower_over_eval]
  · simp [rowC3, lower_under_eval]
  · simp only [rowC3]
    simp only [_american_to_prob]
    rw [if_neg (by norm_num)]
    norm_num
  · simp only [rowC3]
    simp only [_american_to_prob]
    rw [if_neg (by norm_num)]
    norm_num
  · simp [ouCount, isOverUnderRow, pairKey, rowC3, lower_over_eval, lower_under_eval]

/-! Claim C4: concrete input — a single outcome with an absent price. -/

def oC4 : Outcome :=
  { name := some "Over", description := some "Player Four", point := some 5,
    price := none }

def mC4 : Market :=
  { key := some "player_points", last_update := none, outcomes := some [oC4] }

def bkC4 : Bookmaker :=
  { key := some "fanduel", title := some "FanDuel", last_update := none,
    markets := some [mC4] }

def evC4 : Event :=
  { id := some "ev4", home_team := some "H", away_team := some "A",
    commence_time := some "T", bookmakers := some [bkC4] }

/-- C4: for an outcome with an absent price the produced row carries
`implied_prob = 0` (the internal summation placeholder is stored and
displayed), not an absent field. -/
theorem C4_code_eval :
    (flatten_events_to_rows [some evC4]).map
      (fun r => (r.price_american, r.implied_prob)) = [(none, some 0)] := by
  norm_num [flatten_events_to_rows, eventRows, bookmakerRows, marketRows,
    marketRowsAux, impliedsOf, noVigList, _american_to_prob,
    evC4, bkC4, mC4, oC4, round6_zero, round6_one]

/-! Claim C10: per-market normalization invariants of the code. -/

/-- Dividing every element of a list by `t` divides its sum by `t`. -/
lemma sum_map_div (l : List ℚ) (t : ℚ) :
    (l.map (fun p => p / t)).sum = l.sum / t := by
  induction l with
  | nil => simp
  | cons x xs ih => simp [ih, add_div]

/-- With `outcomes` nonempty, `noVigList` has one entry per outcome. -/
lemma noVigList_length (outs : List Outcome) (h1 : 1 ≤ outs.length) :
    (noVigList outs).length = outs.length := by
  simp only [noVigList]
  split
  · simp [impliedsOf]
  · simp [Nat.max_eq_right h1]

/-- Every row built by the enumeration loop reads its `no_vig_prob` from an
in-range index of the `no_vig_probs` list, hence gets a set value. -/
lemma marketRowsAux_no_vig (ev : Event) (bk : Bookmaker) (m : Market)
    (implieds nvs : List ℚ) :
    ∀ (outs : List Outcome) (idx : ℕ), idx + outs.length ≤ nvs.length →
      ∀ r ∈ marketRowsAux ev bk m implieds nvs idx outs,
        r.no_vig_prob.isSome = true := by
  intro outs
  induction outs with
  | nil =>
      intro idx h r hr
      simp [marketRowsAux] at hr
  | cons o rest ih =>
      intro idx h r hr
      simp only [marketRowsAux, List.mem_cons] at hr
      rcases hr with rfl | hr
      · have hidx : idx < nvs.length := by
          simp only [List.length_cons] at h
          omega
        simp [List.getElem?_eq_getElem hidx]
      · refine ih (idx + 1) ?_ r hr
        simp only [List.length_cons] at h
        omega

/-- C10: for every market with a nonempty outcomes collection, every
produced row has `no_vig_prob` set; the unrounded no-vig values sum to
exactly 1; and they are the proportional split `implied / total` when the
implied total is positive and the uniform split `1/n` otherwise. -/
theorem C10_market_no_vig :
    ∀ (ev : Event) (bk : Bookmaker) (m : Market) (outs : List Outcome),
      m.outcomes = some outs → outs ≠ [] →
      (∀ r ∈ marketRows ev bk m, r.no_vig_prob.isSome = true) ∧
      (noVigList outs).sum = 1 ∧
      (0 < (impliedsOf outs).sum →
        noVigList outs =
          (impliedsOf outs).map (fun p => p / (impliedsOf outs).sum)) ∧
      (¬ 0 < (impliedsOf outs).sum →
        noVigList outs = List.replicate outs.length (1 / (outs.length : ℚ))) := by
  intro ev bk m outs hm hne
  have hn : outs.length ≠ 0 := fun h0 => hne (List.length_eq_zero.mp h0)
  have h1 : 1 ≤ outs.length := Nat.one_le_iff_ne_zero.mpr hn
  refine ⟨?_, ?_, ?_, ?_⟩
  · intro r hr
    refine marketRowsAux_no_vig ev bk m (impliedsOf outs) (noVigList outs)
      outs 0 ?_ r ?_
    · rw [noVigList_length outs h1]
      omega
    · simpa [marketRows, hm] using hr
  · by_cases ht : 0 < (impliedsOf outs).sum
    · simp only [noVigList, if_pos ht]
      rw [sum_map_div, div_self (ne_of_gt ht)]
    · simp only [noVigList, if_neg ht]
      rw [Nat.max_eq_right h1, List.sum_replicate, nsmul_eq_mul, mul_one_div]
      exact div_self (Nat.cast_ne_zero.mpr hn)
  · intro ht
    simp only [noVigList, if_pos ht]
  · intro ht
    simp only [noVigList, if_neg ht, Nat.max_eq_right h1]

/-- Witness for C10 on the concrete four-outcome market `mC3`. -/
theorem C10_witness :
    mC3.outcomes = some [oC3ao, oC3au, oC3bo, oC3bu] ∧
    ([oC3ao, oC3au, oC3bo, oC3bu] : List Outcome) ≠ [] ∧
    (noVigList [oC3ao, oC3au, oC3bo, oC3bu]).sum = 1 :=
  ⟨rfl, by simp,
   (C10_market_no_vig evC3 bkC3 mC3 [oC3ao, oC3au, oC3bo, oC3bu] rfl
      (by simp)).2.1⟩

end BuildCsv
